import Mathlib

/-!
Shallow embedding of the arena/handle module (`src/arena.rs`) of the
repository: a typed, append-only arena handing out one-based handles.

Modelling conventions:
* `NonZeroU32` indices are modelled as `Nat` holding the raw stored `u32`
  value; casts `as u32` are explicit `% 2^32`.  The nonzero invariant of
  `NonZeroU32::new_unchecked` is not baked into the type (the source uses an
  `unsafe`, unchecked construction); it is stated and proved as a theorem
  under the length precondition that makes it hold.
* `Vec<T>` is a `List T`; `push` appends at the end.
* Panicking operations (slice indexing out of range) return `Option`,
  with `none` marking the panic/abort path.
-/

namespace Naga

/-- The modulus of the `u32` type, `2^32`. -/
def u32size : Nat := 4294967296

/-- Embeds `Handle<T>`: a strongly typed reference carrying a one-based
`NonZeroU32` index (modelled as the raw `u32` value) and a phantom type tag. -/
structure Handle (T : Type) where
  index : Nat
  deriving DecidableEq

/-- Embeds `Handle::new(index)`. -/
def Handle.new {T : Type} (index : Nat) : Handle T := ⟨index⟩

/-- Embeds `Handle::index(self) -> usize`: the zero-based position,
`self.index.get() - 1` (natural subtraction; the stored index is nonzero
whenever the construction invariant holds). -/
def Handle.index0 {T : Type} (h : Handle T) : Nat := h.index - 1

/-- Embeds `Handle::DUMMY`, whose index is `!0 = u32::MAX`. -/
def Handle.DUMMY (T : Type) : Handle T := Handle.new (u32size - 1)

/-- Embeds the single-variant `enum SerHandle { Handle(Index) }` used as the
compact serialized representation of a handle. -/
inductive SerHandle where
  | Handle (index : Nat)
  deriving DecidableEq

/-- Embeds `impl From<Handle<T>> for SerHandle`. -/
def SerHandle.fromHandle {T : Type} (h : Naga.Handle T) : SerHandle :=
  SerHandle.Handle h.index

/-- Embeds `impl From<SerHandle> for Handle<T>`: reconstructs the handle
directly from the raw integer, with no arena in sight. -/
def Handle.fromSer {T : Type} (s : SerHandle) : Handle T :=
  match s with
  | SerHandle.Handle index => Handle.new index

/-- Embeds `Arena<T>`: ownership of an ordered list of values. -/
structure Arena (T : Type) where
  data : List T
  deriving DecidableEq

/-- Embeds `Arena::new()`. -/
def Arena.new (T : Type) : Arena T := ⟨[]⟩

/-- Embeds `Arena::len()`. -/
def Arena.len {T : Type} (a : Arena T) : Nat := a.data.length

/-- Embeds `Arena::append(value)`: computes `position = len + 1`, casts it
`as u32` (the explicit `% u32size`), builds the handle with the unchecked
nonzero construction, and pushes the value. -/
def Arena.append {T : Type} (a : Arena T) (value : T) : Handle T × Arena T :=
  let position := a.data.length + 1
  let index := position % u32size
  (Handle.new index, ⟨a.data ++ [value]⟩)

/-- Embeds `Iterator::position(p)` on a list iterator: index of the first
element satisfying `p`, if any. -/
def position {T : Type} (p : T → Bool) : List T → Option Nat
  | [] => none
  | x :: xs => if p x then some 0 else Option.map (fun n => n + 1) (position p xs)

/-- Embeds `Arena::fetch_or_append(value)`: linear scan via
`self.data.iter().position(|d| d == &value)`; on a hit, rebuilds the handle
from `(index + 1) as u32`; otherwise falls through to `append`. -/
def Arena.fetch_or_append {T : Type} [DecidableEq T] (a : Arena T) (value : T) :
    Handle T × Arena T :=
  match position (fun d => decide (d = value)) a.data with
  | some index => (Handle.new ((index + 1) % u32size), a)
  | none => a.append value

/-- Embeds `impl Index<Handle<T>> for Arena<T>`: `&self.data[index.get() - 1]`.
A `none` result models the panic of out-of-range slice indexing. -/
def Arena.index {T : Type} (a : Arena T) (handle : Handle T) : Option T :=
  a.data.get? (handle.index - 1)

/-- Embeds `Arena::iter()`: enumerates the data, reconstructing the handle of
position `i` as `(i + 1) as u32`. -/
def Arena.iter {T : Type} (a : Arena T) : List (Handle T × T) :=
  a.data.enum.map (fun p => (Handle.new ((p.1 + 1) % u32size), p.2))

/-- A whole sequence of `append` calls, returning the handles in call order
together with the final arena. -/
def Arena.appendAll {T : Type} (a : Arena T) : List T → List (Handle T) × Arena T
  | [] => ([], a)
  | v :: vs =>
    let ha := a.append v
    let rest := ha.2.appendAll vs
    (ha.1 :: rest.1, rest.2)

/-- One mutating arena operation. -/
inductive Op (T : Type) where
  | append (v : T)
  | fetchOrAppend (v : T)

/-- Runs a sequence of operations, discarding the returned handles. -/
def Arena.run {T : Type} [DecidableEq T] (a : Arena T) : List (Op T) → Arena T
  | [] => a
  | Op.append v :: rest => ((a.append v).2).run rest
  | Op.fetchOrAppend v :: rest => ((a.fetch_or_append v).2).run rest

/-- Runs a sequence of operations, keeping the returned handles in call
order. -/
def Arena.runTrace {T : Type} [DecidableEq T] (a : Arena T) :
    List (Op T) → List (Handle T) × Arena T
  | [] => ([], a)
  | Op.append v :: rest =>
    let ha := a.append v
    let r := ha.2.runTrace rest
    (ha.1 :: r.1, r.2)
  | Op.fetchOrAppend v :: rest =>
    let ha := a.fetch_or_append v
    let r := ha.2.runTrace rest
    (ha.1 :: r.1, r.2)

/-! ### Helper lemmas -/

theorem position_spec {T : Type} [DecidableEq T] {v : T} :
    ∀ (xs : List T) (i : Nat), position (fun d => decide (d = v)) xs = some i →
      xs.get? i = some v ∧ ∀ j, j < i → xs.get? j ≠ some v := by
  intro xs
  induction xs with
  | nil => intro i h; simp [position] at h
  | cons x xs ih =>
    intro i h
    rw [position] at h
    by_cases hx : x = v
    · rw [if_pos (by simp [hx])] at h
      obtain rfl : (0 : Nat) = i := Option.some.inj h
      exact ⟨by simp [hx], fun j hj => absurd hj (Nat.not_lt_zero j)⟩
    · rw [if_neg (by simp [hx])] at h
      cases hpos : position (fun d => decide (d = v)) xs with
      | none => rw [hpos] at h; simp at h
      | some n =>
        rw [hpos] at h
        obtain rfl : n + 1 = i := by simpa using h
        obtain ⟨h1, h2⟩ := ih n hpos
        refine ⟨by simpa using h1, ?_⟩
        intro j hj
        cases j with
        | zero => simp [hx]
        | succ k => simpa using h2 k (Nat.lt_of_succ_lt_succ hj)

theorem position_some_of_mem {T : Type} [DecidableEq T] {v : T} :
    ∀ {xs : List T}, v ∈ xs → ∃ i, position (fun d => decide (d = v)) xs = some i := by
  intro xs
  induction xs with
  | nil => intro h; cases h
  | cons x xs ih =>
    intro h
    by_cases hx : x = v
    · exact ⟨0, by simp [position, hx]⟩
    · have hv : v ∈ xs := by
        cases h with
        | head => exact absurd rfl hx
        | tail _ h => exact h
      obtain ⟨i, hi⟩ := ih hv
      exact ⟨i + 1, by simp [position, hx, hi]⟩

theorem position_none_of_not_mem {T : Type} [DecidableEq T] {v : T} :
    ∀ {xs : List T}, v ∉ xs → position (fun d => decide (d = v)) xs = none := by
  intro xs
  induction xs with
  | nil => intro _; rfl
  | cons x xs ih =>
    intro h
    have hx : ¬ x = v := fun hc => h (hc ▸ List.mem_cons_self x xs)
    have hv : v ∉ xs := fun hc => h (List.mem_cons_of_mem x hc)
    simp [position, hx, ih hv]

theorem position_append_self {T : Type} [DecidableEq T] {v : T} :
    ∀ {xs : List T}, v ∉ xs →
      position (fun d => decide (d = v)) (xs ++ [v]) = some xs.length := by
  intro xs
  induction xs with
  | nil => intro _; simp [position]
  | cons x xs ih =>
    intro h
    have hx : ¬ x = v := fun hc => h (hc ▸ List.mem_cons_self x xs)
    have hv : v ∉ xs := fun hc => h (List.mem_cons_of_mem x hc)
    simp [position, hx, ih hv]

theorem appendAll_length {T : Type} :
    ∀ (vs : List T) (a : Arena T), ((a.appendAll vs).1).length = vs.length := by
  intro vs
  induction vs with
  | nil => intro a; rfl
  | cons v vs ih => intro a; simp [Arena.appendAll, ih]

theorem appendAll_data {T : Type} :
    ∀ (vs : List T) (a : Arena T), ((a.appendAll vs).2).data = a.data ++ vs := by
  intro vs
  induction vs with
  | nil => intro a; simp [Arena.appendAll]
  | cons v vs ih =>
    intro a
    simp [Arena.appendAll, Arena.append, ih]

theorem appendAll_get? {T : Type} :
    ∀ (vs : List T) (a : Arena T) (i : Nat), i < vs.length →
      ((a.appendAll vs).1).get? i
        = some (Handle.new ((a.data.length + i + 1) % u32size)) := by
  intro vs
  induction vs with
  | nil => intro a i h; exact absurd h (Nat.not_lt_zero i)
  | cons v vs ih =>
    intro a i h
    cases i with
    | zero => simp [Arena.appendAll, Arena.append]
    | succ k =>
      have hk : k < vs.length := Nat.lt_of_succ_lt_succ h
      have h2 := ih ((a.append v).2) k hk
      have hlen : ((a.append v).2).data.length = a.data.length + 1 := by
        simp [Arena.append]
      rw [hlen] at h2
      have harith : a.data.length + 1 + k + 1 = a.data.length + (k + 1) + 1 := by omega
      rw [harith] at h2
      simpa [Arena.appendAll] using h2

theorem appendAll_append_fst {T : Type} :
    ∀ (vs ws : List T) (a : Arena T),
      (a.appendAll (vs ++ ws)).1
        = (a.appendAll vs).1 ++ (((a.appendAll vs).2).appendAll ws).1 := by
  intro vs
  induction vs with
  | nil => intro ws a; simp [Arena.appendAll]
  | cons v vs ih =>
    intro ws a
    simp [Arena.appendAll, ih]

theorem run_data {T : Type} [DecidableEq T] :
    ∀ (ops : List (Op T)) (a : Arena T), ∃ tl, (a.run ops).data = a.data ++ tl := by
  intro ops
  induction ops with
  | nil => intro a; exact ⟨[], by simp [Arena.run]⟩
  | cons op rest ih =>
    intro a
    cases op with
    | append v =>
      obtain ⟨tl, htl⟩ := ih ((a.append v).2)
      refine ⟨[v] ++ tl, ?_⟩
      show (((a.append v).2).run rest).data = _
      rw [htl]
      simp [Arena.append, List.append_assoc]
    | fetchOrAppend v =>
      cases hpos : position (fun d => decide (d = v)) a.data with
      | some i =>
        obtain ⟨tl, htl⟩ := ih a
        refine ⟨tl, ?_⟩
        show (((a.fetch_or_append v).2).run rest).data = _
        rw [Arena.fetch_or_append, hpos]
        exact htl
      | none =>
        obtain ⟨tl, htl⟩ := ih ((a.append v).2)
        refine ⟨[v] ++ tl, ?_⟩
        show (((a.fetch_or_append v).2).run rest).data = _
        rw [Arena.fetch_or_append, hpos]
        rw [htl]
        simp [Arena.append, List.append_assoc]

theorem iter_index_bound {T : Type} (a : Arena T) (p : Handle T × T) (hp : p ∈ a.iter) :
    ∃ i, i < a.data.length ∧ p.1 = Handle.new ((i + 1) % u32size) := by
  obtain ⟨q, hq, rfl⟩ := List.mem_map.mp hp
  refine ⟨q.1, ?_, rfl⟩
  have h1 := List.mem_enum_iff_getElem?.mp hq
  obtain ⟨hlt, _⟩ := List.getElem?_eq_some.mp h1
  exact hlt

/-! ### Claim theorems -/

/-- C1: for every sequence of `append` calls (of any length below the `u32`
bound, the precondition under which the unchecked cast is sound, cf. C10) on a
fresh arena, the returned handles are pairwise distinct and strictly
increasing in encoded index, the handle of the Nth append (1-based) encodes
the one-based position N, and later appends never renumber earlier returned
handles (the trace of a longer sequence extends the trace of its front). -/
theorem append_sequence_handles (T : Type) (vs : List T)
    (hlen : vs.length < u32size) :
    (((Arena.new T).appendAll vs).1).Pairwise (fun h1 h2 => h1.index < h2.index) ∧
    (((Arena.new T).appendAll vs).1).Pairwise (fun h1 h2 => h1 ≠ h2) ∧
    (∀ i, i < vs.length →
      (((Arena.new T).appendAll vs).1).get? i = some (Handle.new (i + 1))) ∧
    (∀ ws : List T, ((Arena.new T).appendAll (vs ++ ws)).1
        = ((Arena.new T).appendAll vs).1
          ++ ((((Arena.new T).appendAll vs).2).appendAll ws).1) := by
  have hlen' := appendAll_length vs (Arena.new T)
  have key : ∀ i, i < vs.length →
      (((Arena.new T).appendAll vs).1).get? i = some (Handle.new (i + 1)) := by
    intro i hi
    have h2 := appendAll_get? vs (Arena.new T) i hi
    have hmod : i + 1 < u32size := by omega
    simpa [Arena.new, Nat.mod_eq_of_lt hmod] using h2
  have hinc : (((Arena.new T).appendAll vs).1).Pairwise
      (fun h1 h2 => h1.index < h2.index) := by
    rw [List.pairwise_iff_get]
    intro i j hij
    have hi : (i : Nat) < vs.length := by rw [← hlen']; exact i.2
    have hj : (j : Nat) < vs.length := by rw [← hlen']; exact j.2
    have ei : (((Arena.new T).appendAll vs).1).get i = Handle.new ((i : Nat) + 1) := by
      have hk := key i hi
      rw [List.get?_eq_get i.2] at hk
      exact Option.some.inj hk
    have ej : (((Arena.new T).appendAll vs).1).get j = Handle.new ((j : Nat) + 1) := by
      have hk := key j hj
      rw [List.get?_eq_get j.2] at hk
      exact Option.some.inj hk
    rw [ei, ej]
    show (i : Nat) + 1 < (j : Nat) + 1
    exact Nat.succ_lt_succ hij
  refine ⟨hinc, ?_, key, fun ws => appendAll_append_fst vs ws (Arena.new T)⟩
  refine hinc.imp ?_
  intro h1 h2 hlt heq
  rw [heq] at hlt
  exact Nat.lt_irrefl _ hlt

/-- Witness for C1 at the concrete input `[0, 1, 2]`. -/
theorem append_sequence_handles_witness :
    ([0, 1, 2] : List Nat).length < u32size ∧
    ((((Arena.new Nat).appendAll [0, 1, 2]).1).Pairwise
        (fun h1 h2 => h1.index < h2.index) ∧
      (((Arena.new Nat).appendAll [0, 1, 2]).1).Pairwise (fun h1 h2 => h1 ≠ h2) ∧
      (∀ i, i < ([0, 1, 2] : List Nat).length →
        (((Arena.new Nat).appendAll [0, 1, 2]).1).get? i = some (Handle.new (i + 1))) ∧
      (∀ ws : List Nat, ((Arena.new Nat).appendAll ([0, 1, 2] ++ ws)).1
          = ((Arena.new Nat).appendAll [0, 1, 2]).1
            ++ ((((Arena.new Nat).appendAll [0, 1, 2]).2).appendAll ws).1)) :=
  ⟨by decide, append_sequence_handles Nat [0, 1, 2] (by decide)⟩

/-- C2: `fetch_or_append` scans in insertion order; on a value already present
it returns the handle of the first (earliest) equal element and leaves the
arena unchanged; on a fresh value it behaves exactly like `append`. -/
theorem fetch_or_append_scan {T : Type} [DecidableEq T] (a : Arena T) (v : T) :
    (v ∈ a.data →
      (a.fetch_or_append v).2 = a ∧
      ∃ i, i < a.data.length ∧ a.data.get? i = some v ∧
        (∀ j, j < i → a.data.get? j ≠ some v) ∧
        (a.fetch_or_append v).1 = Handle.new ((i + 1) % u32size)) ∧
    (v ∉ a.data → a.fetch_or_append v = a.append v) := by
  constructor
  · intro hmem
    obtain ⟨i, hi⟩ := position_some_of_mem hmem
    obtain ⟨hget, hmin⟩ := position_spec a.data i hi
    obtain ⟨hlt, _⟩ := List.get?_eq_some.mp hget
    refine ⟨?_, i, hlt, hget, hmin, ?_⟩
    · simp [Arena.fetch_or_append, hi]
    · simp [Arena.fetch_or_append, hi]
  · intro hnm
    simp [Arena.fetch_or_append, position_none_of_not_mem hnm]

/-- Witness for C2 at the concrete arena `[3, 5]` with values `5` (present)
and `7` (absent). -/
theorem fetch_or_append_scan_witness :
    ((5 : Nat) ∈ (Arena.mk [3, 5] : Arena Nat).data ∧
      (((Arena.mk [3, 5] : Arena Nat).fetch_or_append 5).2 = Arena.mk [3, 5] ∧
        ∃ i, i < (Arena.mk [3, 5] : Arena Nat).data.length ∧
          (Arena.mk [3, 5] : Arena Nat).data.get? i = some 5 ∧
          (∀ j, j < i → (Arena.mk [3, 5] : Arena Nat).data.get? j ≠ some 5) ∧
          ((Arena.mk [3, 5] : Arena Nat).fetch_or_append 5).1
            = Handle.new ((i + 1) % u32size))) ∧
    ((7 : Nat) ∉ (Arena.mk [3, 5] : Arena Nat).data ∧
      (Arena.mk [3, 5] : Arena Nat).fetch_or_append 7
        = (Arena.mk [3, 5] : Arena Nat).append 7) :=
  ⟨⟨by decide, (fetch_or_append_scan (Arena.mk [3, 5]) 5).1 (by decide)⟩,
   ⟨by decide, (fetch_or_append_scan (Arena.mk [3, 5]) 7).2 (by decide)⟩⟩

/-- Helper for C3: a handle returned by `append` still resolves to the
appended value after any further operations. -/
theorem append_run_index {T : Type} [DecidableEq T] (a : Arena T) (v : T)
    (ops : List (Op T)) (hlen : a.data.length + 1 < u32size) :
    (((a.append v).2).run ops).index (a.append v).1 = some v := by
  obtain ⟨tl, htl⟩ := run_data ops ((a.append v).2)
  have hidx : ((a.append v).1).index = a.data.length + 1 := by
    simp [Arena.append, Handle.new, Nat.mod_eq_of_lt hlen]
  have hdata : ((a.append v).2).data = a.data ++ [v] := by simp [Arena.append]
  rw [Arena.index, hidx, htl, hdata, List.append_assoc]
  have h1 : a.data.length + 1 - 1 = a.data.length := rfl
  rw [h1, List.get?_append_right (Nat.le_refl _)]
  simp

/-- C3: the handle returned by `append` (or by `fetch_or_append`) on an
in-bounds arena resolves, via arena indexing, to the inserted value, and it
still does after any further sequence of `append`/`fetch_or_append`
operations. -/
theorem handle_lookup_stable {T : Type} [DecidableEq T] (a : Arena T) (v : T)
    (ops : List (Op T)) (hlen : a.data.length + 1 < u32size) :
    (((a.append v).2).run ops).index (a.append v).1 = some v ∧
    (((a.fetch_or_append v).2).run ops).index (a.fetch_or_append v).1 = some v := by
  refine ⟨append_run_index a v ops hlen, ?_⟩
  cases hpos : position (fun d => decide (d = v)) a.data with
  | some i =>
    obtain ⟨hget, _⟩ := position_spec a.data i hpos
    obtain ⟨hlt, _⟩ := List.get?_eq_some.mp hget
    have hfetch1 : (a.fetch_or_append v).1 = Handle.new ((i + 1) % u32size) := by
      simp [Arena.fetch_or_append, hpos]
    have hfetch2 : (a.fetch_or_append v).2 = a := by
      simp [Arena.fetch_or_append, hpos]
    obtain ⟨tl, htl⟩ := run_data ops a
    have hidx : (Handle.new ((i + 1) % u32size) : Handle T).index = i + 1 := by
      simp [Handle.new, Nat.mod_eq_of_lt (show i + 1 < u32size by omega)]
    rw [hfetch1, hfetch2, Arena.index, hidx, htl]
    have h1 : i + 1 - 1 = i := rfl
    rw [h1, List.get?_append hlt]
    exact hget
  | none =>
    have heq : a.fetch_or_append v = a.append v := by
      simp [Arena.fetch_or_append, hpos]
    rw [heq]
    exact append_run_index a v ops hlen

/-- Witness for C3 at the arena `[7]`, value `9`, and two further
operations. -/
theorem handle_lookup_stable_witness :
    (Arena.mk [7] : Arena Nat).data.length + 1 < u32size ∧
    (((((Arena.mk [7] : Arena Nat).append 9).2).run
        [Op.append 1, Op.fetchOrAppend 7]).index
        ((Arena.mk [7] : Arena Nat).append 9).1 = some 9 ∧
      ((((Arena.mk [7] : Arena Nat).fetch_or_append 9).2).run
        [Op.append 1, Op.fetchOrAppend 7]).index
        ((Arena.mk [7] : Arena Nat).fetch_or_append 9).1 = some 9) :=
  ⟨by decide,
   handle_lookup_stable (Arena.mk [7]) 9 [Op.append 1, Op.fetchOrAppend 7] (by decide)⟩

/-- C4 counterexample: on an arena already containing `5`, two consecutive
`fetch_or_append 5` calls leave the length unchanged, so the total length
increase is zero, not the exactly-one the claim states for every arena. -/
theorem fetch_twice_length_claim_false :
    ((((Arena.mk [5] : Arena Nat).fetch_or_append 5).2.fetch_or_append 5).2).data.length
      ≠ (Arena.mk [5] : Arena Nat).data.length + 1 := by decide

/-- C4 amended: two consecutive `fetch_or_append v` calls return the same
handle both times; the arena length grows by exactly one in total when `v`
was absent beforehand and by zero when it was already present — never by
two. -/
theorem fetch_twice_amended {T : Type} [DecidableEq T] (a : Arena T) (v : T) :
    (a.fetch_or_append v).1 = (((a.fetch_or_append v).2).fetch_or_append v).1 ∧
    ((((a.fetch_or_append v).2).fetch_or_append v).2).data.length
      = a.data.length + (if v ∈ a.data then 0 else 1) := by
  by_cases hmem : v ∈ a.data
  · obtain ⟨i, hi⟩ := position_some_of_mem hmem
    have h2 : (a.fetch_or_append v).2 = a := by simp [Arena.fetch_or_append, hi]
    rw [h2]
    refine ⟨rfl, ?_⟩
    rw [h2]
    simp [hmem]
  · have hpos := position_none_of_not_mem hmem
    have h1 : a.fetch_or_append v = a.append v := by
      simp [Arena.fetch_or_append, hpos]
    rw [h1]
    have hdata : ((a.append v).2).data = a.data ++ [v] := by simp [Arena.append]
    have hpos2 : position (fun d => decide (d = v)) ((a.append v).2).data
        = some a.data.length := by rw [hdata]; exact position_append_self hmem
    have hf1 : (((a.append v).2).fetch_or_append v).1
        = Handle.new ((a.data.length + 1) % u32size) := by
      simp [Arena.fetch_or_append, hpos2]
    have hf2 : (((a.append v).2).fetch_or_append v).2 = (a.append v).2 := by
      simp [Arena.fetch_or_append, hpos2]
    constructor
    · rw [hf1]; simp [Arena.append]
    · rw [hf2, hdata]; simp [hmem]

/-- C5 counterexample: running `[fetch_or_append 0, fetch_or_append 0]` on a
fresh arena, the handle returned by the 2nd insertion encodes index 1 (the
earlier duplicate's position), not 2 as the claim states. -/
theorem nth_insertion_claim_false :
    (((Arena.new Nat).runTrace [Op.fetchOrAppend 0, Op.fetchOrAppend 0]).1).get? 1
        = some (Handle.new 1) ∧
    (((Arena.new Nat).runTrace [Op.fetchOrAppend 0, Op.fetchOrAppend 0]).1).get? 1
        ≠ some (Handle.new 2) := by decide

/-- C5 amended: an insertion that creates a new element — `append`, or
`fetch_or_append` of an absent value — returns a handle encoding the new
one-based position `len + 1`; a `fetch_or_append` that finds a duplicate
instead returns the handle of the first earlier equal element, encoding that
element's one-based position rather than the insertion ordinal. -/
theorem nth_insertion_handle {T : Type} [DecidableEq T] (a : Arena T) (v : T)
    (hlen : a.data.length + 1 < u32size) :
    (a.append v).1.index = a.data.length + 1 ∧
    (v ∉ a.data → (a.fetch_or_append v).1.index = a.data.length + 1) ∧
    (v ∈ a.data → ∃ i, i < a.data.length ∧ a.data.get? i = some v ∧
      (∀ j, j < i → a.data.get? j ≠ some v) ∧
      (a.fetch_or_append v).1.index = i + 1) := by
  have happ : (a.append v).1.index = a.data.length + 1 := by
    simp [Arena.append, Handle.new, Nat.mod_eq_of_lt hlen]
  refine ⟨happ, ?_, ?_⟩
  · intro hnm
    rw [show a.fetch_or_append v = a.append v by
      simp [Arena.fetch_or_append, position_none_of_not_mem hnm]]
    exact happ
  · intro hmem
    obtain ⟨i, hi⟩ := position_some_of_mem hmem
    obtain ⟨hget, hmin⟩ := position_spec a.data i hi
    obtain ⟨hlt, _⟩ := List.get?_eq_some.mp hget
    refine ⟨i, hlt, hget, hmin, ?_⟩
    have hfst : (a.fetch_or_append v).1 = Handle.new ((i + 1) % u32size) := by
      simp [Arena.fetch_or_append, hi]
    rw [hfst]
    simp [Handle.new, Nat.mod_eq_of_lt (show i + 1 < u32size by omega)]

/-- Witness for the amended C5 at the arena `[4]` with values `4` (present)
and `6` (absent). -/
theorem nth_insertion_handle_witness :
    ((Arena.mk [4] : Arena Nat).data.length + 1 < u32size ∧
      (((Arena.mk [4] : Arena Nat).append 4).1.index
          = (Arena.mk [4] : Arena Nat).data.length + 1 ∧
        ((4 : Nat) ∉ (Arena.mk [4] : Arena Nat).data →
          ((Arena.mk [4] : Arena Nat).fetch_or_append 4).1.index
            = (Arena.mk [4] : Arena Nat).data.length + 1) ∧
        ((4 : Nat) ∈ (Arena.mk [4] : Arena Nat).data →
          ∃ i, i < (Arena.mk [4] : Arena Nat).data.length ∧
            (Arena.mk [4] : Arena Nat).data.get? i = some 4 ∧
            (∀ j, j < i → (Arena.mk [4] : Arena Nat).data.get? j ≠ some 4) ∧
            ((Arena.mk [4] : Arena Nat).fetch_or_append 4).1.index = i + 1))) :=
  ⟨by decide, nth_insertion_handle (Arena.mk [4]) 4 (by decide)⟩

/-- C6: under the in-bounds length precondition (the one C10 identifies for
the unchecked cast), every handle produced by `append`, `fetch_or_append` or
`iter` carries a nonzero stored index; zero is never produced. -/
theorem handles_nonzero {T : Type} [DecidableEq T] (a : Arena T) (v : T)
    (hlen : a.data.length + 1 < u32size) :
    (a.append v).1.index ≠ 0 ∧
    (a.fetch_or_append v).1.index ≠ 0 ∧
    ∀ p ∈ a.iter, p.1.index ≠ 0 := by
  have happ : (a.append v).1.index = a.data.length + 1 := by
    simp [Arena.append, Handle.new, Nat.mod_eq_of_lt hlen]
  refine ⟨?_, ?_, ?_⟩
  · rw [happ]; exact Nat.succ_ne_zero _
  · cases hpos : position (fun d => decide (d = v)) a.data with
    | some i =>
      obtain ⟨hget, _⟩ := position_spec a.data i hpos
      obtain ⟨hlt, _⟩ := List.get?_eq_some.mp hget
      have hfst : (a.fetch_or_append v).1 = Handle.new ((i + 1) % u32size) := by
        simp [Arena.fetch_or_append, hpos]
      rw [hfst]
      simp [Handle.new, Nat.mod_eq_of_lt (show i + 1 < u32size by omega)]
    | none =>
      rw [show a.fetch_or_append v = a.append v by
        simp [Arena.fetch_or_append, hpos], happ]
      exact Nat.succ_ne_zero _
  · intro p hp
    obtain ⟨i, hlt, hpi⟩ := iter_index_bound a p hp
    rw [hpi]
    simp [Handle.new, Nat.mod_eq_of_lt (show i + 1 < u32size by omega)]

/-- Witness for C6 at the arena `[2, 2]` with value `2`. -/
theorem handles_nonzero_witness :
    (Arena.mk [2, 2] : Arena Nat).data.length + 1 < u32size ∧
    (((Arena.mk [2, 2] : Arena Nat).append 2).1.index ≠ 0 ∧
      ((Arena.mk [2, 2] : Arena Nat).fetch_or_append 2).1.index ≠ 0 ∧
      ∀ p ∈ (Arena.mk [2, 2] : Arena Nat).iter, p.1.index ≠ 0) :=
  ⟨by decide, handles_nonzero (Arena.mk [2, 2]) 2 (by decide)⟩

/-- C7: indexing an arena with a handle whose encoded one-based index exceeds
the current length hits the out-of-range path of `self.data[...]` — the
panic, modelled as `none` — and never yields a value. -/
theorem index_out_of_range_fatal {T : Type} (a : Arena T) (h : Handle T)
    (hgt : a.data.length < h.index) :
    a.index h = none := by
  rw [Arena.index]
  apply List.get?_eq_none.mpr
  omega

/-- Witness for C7: the arena `[3, 5]` never produced a handle with index 3,
and indexing with it aborts. -/
theorem index_out_of_range_fatal_witness :
    (Arena.mk [3, 5] : Arena Nat).data.length < (Handle.new 3 : Handle Nat).index ∧
    (Arena.mk [3, 5] : Arena Nat).index (Handle.new 3) = none :=
  ⟨by decide, index_out_of_range_fatal (Arena.mk [3, 5]) (Handle.new 3) (by decide)⟩

/-- C8: `Handle::index()` returns the stored one-based index minus one — the
zero-based position the arena lookup uses — with no error path; for a handle
just produced by `append` it equals the zero-based position of the inserted
element, at which the element is found. -/
theorem handle_index_zero_based {T : Type} (a : Arena T) (v : T) (h : Handle T)
    (hlen : a.data.length + 1 < u32size) :
    h.index0 = h.index - 1 ∧
    a.index h = a.data.get? h.index0 ∧
    ((a.append v).1).index0 = a.data.length ∧
    ((a.append v).2).data.get? ((a.append v).1).index0 = some v := by
  have happ : (a.append v).1.index = a.data.length + 1 := by
    simp [Arena.append, Handle.new, Nat.mod_eq_of_lt hlen]
  have hidx0 : ((a.append v).1).index0 = a.data.length := by
    rw [Handle.index0, happ]
    omega
  refine ⟨rfl, rfl, hidx0, ?_⟩
  rw [hidx0]
  have hdata : ((a.append v).2).data = a.data ++ [v] := by simp [Arena.append]
  rw [hdata, List.get?_append_right (Nat.le_refl _)]
  simp

/-- Witness for C8 at the arena `[8]`, value `9`, handle of index 1. -/
theorem handle_index_zero_based_witness :
    (Arena.mk [8] : Arena Nat).data.length + 1 < u32size ∧
    ((Handle.new 1 : Handle Nat).index0 = (Handle.new 1 : Handle Nat).index - 1 ∧
      (Arena.mk [8] : Arena Nat).index (Handle.new 1)
        = (Arena.mk [8] : Arena Nat).data.get? (Handle.new 1 : Handle Nat).index0 ∧
      (((Arena.mk [8] : Arena Nat).append 9).1).index0
        = (Arena.mk [8] : Arena Nat).data.length ∧
      (((Arena.mk [8] : Arena Nat).append 9).2).data.get?
          ((((Arena.mk [8] : Arena Nat).append 9).1).index0) = some 9) :=
  ⟨by decide, handle_index_zero_based (Arena.mk [8]) 9 (Handle.new 1) (by decide)⟩

/-- C9: converting a handle to the single-variant `SerHandle` wrapper and back
yields an identical handle — in particular the maximum representable index,
that of `Handle::DUMMY`, survives unchanged — and the deserializing direction
rebuilds a handle from the raw integer alone, with no arena validation. -/
theorem handle_ser_roundtrip (T : Type) (h : Handle T) (n : Nat) :
    Handle.fromSer (T := T) (SerHandle.fromHandle h) = h ∧
    (Handle.fromSer (T := T) (SerHandle.fromHandle (Handle.DUMMY T))).index
      = u32size - 1 ∧
    Handle.fromSer (T := T) (SerHandle.Handle n) = Handle.new n := by
  refine ⟨?_, rfl, rfl⟩
  cases h
  rfl

/-- C10: whenever the arena length is strictly below `2^32 - 1`, the `as u32`
cast of the new one-based position `len + 1` is nonzero, so the unchecked
nonzero construction in `append`, in the appending branch of
`fetch_or_append`, and in `iter`'s handle reconstruction never hits its error
condition; nothing guards the cast, and at length exactly `2^32 - 1` the
cast result is zero. -/
theorem unchecked_cast_nonzero {T : Type} [DecidableEq T] (a : Arena T) (v : T)
    (hlen : a.data.length < u32size - 1) :
    (a.data.length + 1) % u32size ≠ 0 ∧
    (a.append v).1.index = a.data.length + 1 ∧
    (a.append v).1.index ≠ 0 ∧
    (v ∉ a.data → (a.fetch_or_append v).1.index = a.data.length + 1) ∧
    (∀ p ∈ a.iter, p.1.index ≠ 0) ∧
    (∀ a' : Arena T, a'.data.length = u32size - 1 → ((a'.append v).1).index = 0) := by
  have hu : (4294967294 : Nat) + 1 < u32size := by norm_num [u32size]
  have hlt : a.data.length + 1 < u32size := by
    have : u32size - 1 ≤ u32size := Nat.sub_le _ _
    omega
  have happ : (a.append v).1.index = a.data.length + 1 := by
    simp [Arena.append, Handle.new, Nat.mod_eq_of_lt hlt]
  refine ⟨?_, happ, ?_, ?_, ?_, ?_⟩
  · rw [Nat.mod_eq_of_lt hlt]; exact Nat.succ_ne_zero _
  · rw [happ]; exact Nat.succ_ne_zero _
  · intro hnm
    rw [show a.fetch_or_append v = a.append v by
      simp [Arena.fetch_or_append, position_none_of_not_mem hnm]]
    exact happ
  · intro p hp
    obtain ⟨i, hilt, hpi⟩ := iter_index_bound a p hp
    rw [hpi]
    simp [Handle.new, Nat.mod_eq_of_lt (show i + 1 < u32size by omega)]
  · intro a' ha'
    have h1 : a'.data.length + 1 = u32size := by
      rw [ha']
      norm_num [u32size]
    simp [Arena.append, Handle.new, h1, Nat.mod_self]

/-- Witness for C10 at the empty arena with value `0`. -/
theorem unchecked_cast_nonzero_witness :
    (Arena.new Nat).data.length < u32size - 1 ∧
    (((Arena.new Nat).data.length + 1) % u32size ≠ 0 ∧
      ((Arena.new Nat).append 0).1.index = (Arena.new Nat).data.length + 1 ∧
      ((Arena.new Nat).append 0).1.index ≠ 0 ∧
      ((0 : Nat) ∉ (Arena.new Nat).data →
        ((Arena.new Nat).fetch_or_append 0).1.index
          = (Arena.new Nat).data.length + 1) ∧
      (∀ p ∈ (Arena.new Nat).iter, p.1.index ≠ 0) ∧
      (∀ a' : Arena Nat, a'.data.length = u32size - 1 →
        ((a'.append 0).1).index = 0)) :=
  ⟨by decide, unchecked_cast_nonzero (Arena.new Nat) 0 (by decide)⟩

end Naga
